import Mathlib

/-!
Verification of the dependency-tracking subsystem (`Tree`) of pyft
(`src/pyft/tree.py`), via a shallow embedding of its data model and
algorithms.  File records are association lists keyed by file name
(Python dicts preserving insertion order); scope paths and file names
are strings, exactly as in the source.
-/

set_option autoImplicit false

namespace PyftTree

/-! ## Generic list helpers (association lists model Python dicts) -/

/-- Concatenation of a list of lists (Python nested list comprehensions). -/
def joinL {α : Type} : List (List α) → List α
  | [] => []
  | x :: xs => x ++ joinL xs

theorem mem_joinL {α : Type} {a : α} : ∀ {ls : List (List α)},
    a ∈ joinL ls ↔ ∃ l, l ∈ ls ∧ a ∈ l := by
  intro ls
  induction ls with
  | nil => simp [joinL]
  | cons x xs ih =>
    simp only [joinL, List.mem_append, List.mem_cons, ih]
    constructor
    · rintro (h | ⟨l, hl, ha⟩)
      · exact ⟨x, Or.inl rfl, h⟩
      · exact ⟨l, Or.inr hl, ha⟩
    · rintro ⟨l, (rfl | hl), ha⟩
      · exact Or.inl ha
      · exact Or.inr ⟨l, hl, ha⟩

/-- Lookup in an association list with a default value (Python `dict.get` /
`dict[k]` on keys known to be present). -/
def lookupD {α : Type} : List (String × α) → String → α → α
  | [], _, d => d
  | (k, v) :: rest, key, d => if k = key then v else lookupD rest key d

theorem mem_lookupD {α : Type} {x : α} :
    ∀ {l : List (String × List α)} {key : String},
      x ∈ lookupD l key [] → ∃ v, (key, v) ∈ l ∧ x ∈ v := by
  intro l
  induction l with
  | nil => intro key h; simp [lookupD] at h
  | cons p rest ih =>
    intro key h
    simp only [lookupD] at h
    by_cases hk : p.1 = key
    · rw [if_pos hk] at h
      exact ⟨p.2, by simp [← hk], h⟩
    · rw [if_neg hk] at h
      obtain ⟨v, hv, hx⟩ := ih h
      exact ⟨v, List.mem_cons_of_mem _ hv, hx⟩

/-- Replace the value stored for a key, or append a new entry (Python
`d[k] = v`, preserving insertion order). -/
def assocSet {α : Type} (l : List (String × α)) (k : String) (v : α) :
    List (String × α) :=
  if k ∈ l.map Prod.fst then
    l.map (fun p => if p.1 = k then (k, v) else p)
  else l ++ [(k, v)]

/-- Deduplication of a list, as a model of Python `list(set(...))`:
the resulting list has the same members, each exactly once. -/
def dedupList : List String → List String
  | [] => []
  | x :: xs => if x ∈ xs then dedupList xs else x :: dedupList xs

theorem mem_dedupList {a : String} : ∀ {l : List String},
    a ∈ dedupList l ↔ a ∈ l := by
  intro l
  induction l with
  | nil => simp [dedupList]
  | cons x xs ih =>
    simp only [dedupList]
    by_cases hx : x ∈ xs
    · rw [if_pos hx, ih]
      simp only [List.mem_cons]
      constructor
      · exact fun h => Or.inr h
      · rintro (rfl | h)
        · exact hx
        · exact h
    · rw [if_neg hx]
      simp [ih]

/-- A list of length one is the singleton of its head. -/
theorem eq_singleton_of_length_one {α : Type} {l : List α} (d : α)
    (h : l.length = 1) : l = [l.headD d] := by
  cases l with
  | nil => simp at h
  | cons x xs =>
    cases xs with
    | nil => rfl
    | cons y ys => simp [List.length] at h

/-! ## String and path helpers

These model the `str` and `os.path` operations used by `tree.py`.
`os.path.realpath` is modelled without symbolic links: it joins the
process working directory (an explicit `cwd` argument) and normalizes. -/

/-- Split a string at every occurrence of a separator character
(Python `s.split(c)`). -/
def splitOnChar (c : Char) (s : String) : List String :=
  (s.toList.foldr
    (fun ch acc =>
      if ch = c then [] :: acc
      else
        match acc with
        | [] => [[ch]]
        | a :: rest => (ch :: a) :: rest)
    [[]]).map (fun l => String.mk l)

/-- Path components of a string (split at `/`). -/
def pathComps (p : String) : List String := splitOnChar '/' p

/-- Join path components with `/`. -/
def joinComps : List String → String
  | [] => ""
  | [x] => x
  | x :: xs => x ++ "/" ++ joinComps xs

/-- Python `s.startswith(pre)`. -/
def strStarts (s pre : String) : Bool := List.isPrefixOf pre.toList s.toList

/-- Python `s.endswith(suf)`. -/
def strEnds (s suf : String) : Bool := List.isSuffixOf suf.toList s.toList

/-- Last `/`-separated segment of a path (Python `p.split('/')[-1]`). -/
def lastSeg (p : String) : String := (pathComps p).getLastD ""

/-- Python `'/' in p`. -/
def hasSlash (p : String) : Bool := p.toList.contains '/'

/-- Python `p.rsplit('/', 1)[0]` for a path that contains `/`:
everything before the last component. -/
def upDir (p : String) : String := joinComps (pathComps p).dropLast

/-- Python `p.rsplit('/', 2)[0]`: the join of all but the last two
components when there are at least three, else the first component. -/
def rsplitHead2 (p : String) : String :=
  let cs := pathComps p
  if cs.length ≥ 3 then joinComps (cs.dropLast.dropLast) else cs.headD ""

/-- Python `os.path.isabs`. -/
def isabs (p : String) : Bool := strStarts p "/"

/-- Python `os.path.basename`. -/
def basename (p : String) : String := (pathComps p).getLastD ""

/-- Python `os.path.dirname`. -/
def dirname (p : String) : String :=
  let cs := (pathComps p).dropLast
  if cs = [] then ""
  else if cs.all (fun c => c = "") then "/"
  else joinComps ((cs.reverse.dropWhile (fun c => c = "")).reverse)

/-- Python `os.path.join` for two arguments. -/
def joinPath (a b : String) : String :=
  if isabs b then b
  else if a = "" ∨ strEnds a "/" then a ++ b
  else a ++ "/" ++ b

/-- One step of `os.path.normpath`'s component scan: `acc` holds the
already-kept components in reverse order. -/
def normStep (isAbs : Bool) (acc : List String) (comp : String) : List String :=
  if comp ≠ ".." ∨ ((!isAbs) ∧ acc = []) ∨ acc.headD "" = ".." then
    comp :: acc
  else if acc ≠ [] then acc.tail
  else acc

/-- Python `os.path.normpath`. -/
def normpath (p : String) : String :=
  let isAbs := isabs p
  let comps := (pathComps p).filter (fun c => ¬(c = "" ∨ c = "."))
  let kept := (comps.foldl (normStep isAbs) []).reverse
  let body := joinComps kept
  if isAbs then "/" ++ body
  else if body = "" then "." else body

/-- Python `os.path.realpath`, modelled without symbolic links: the path
is made absolute against the process working directory `cwd` and
normalized. -/
def realpath (cwd p : String) : String := normpath (joinPath cwd p)

/-- Python `filename[2:] if filename.startswith('./') else filename`
(`Tree._analyseFile`'s path normalization). -/
def stripDotSlash (f : String) : String :=
  if strStarts f "./" then String.mk (f.toList.drop 2) else f

/-! ## The reachability engine: `Tree._recurList`

`_recurList(node, descTreePart, level, down)` runs a nested Python
function `recur(n, level, currentList)`.  In the `down` direction,
`result = descTreePart.get(n, [])` aliases the list object stored in the
dict, and `result.extend(...)` mutates it in place; the recursive call
receives `result` itself as `currentList`.  To embed these aliasing
semantics faithfully, list objects live in an explicit heap (a list of
string lists addressed by index) and the graph's dict maps each node to
the heap cell holding its adjacency list.  Python recursion depth is
modelled by a fuel parameter: `none` means the recursion exceeds every
finite depth (Python's `RecursionError`). -/

/-- Current contents of heap cell `i`. -/
def heapGet (heap : List (List String)) (i : Nat) : List String :=
  heap.getD i []

/-- Python `list.extend` on the heap cell `i`. -/
def heapExtend (heap : List (List String)) (i : Nat) (xs : List String) :
    List (List String) :=
  heap.set i (heap.getD i [] ++ xs)

/-- Index of the heap cell aliased by `descTreePart[n]`. -/
def lookupId : List (String × Nat) → String → Option Nat
  | [], _ => none
  | (k, v) :: rest, n => if k = n then some v else lookupId rest n

/-- Maps each graph key to the index of its heap cell, in order. -/
def dictOfAux : Nat → List (String × List String) → List (String × Nat)
  | _, [] => []
  | i, p :: ps => (p.1, i) :: dictOfAux (i + 1) ps

/-- Dict of the graph: node name to heap-cell index. -/
def dictOf (graph : List (String × List String)) : List (String × Nat) :=
  dictOfAux 0 graph

/-- Reverse edges, for `down=False`:
`[item for (item, l) in descTreePart.items() if n in l]`. -/
def revEdges (graph : List (String × List String)) (n : String) :
    List String :=
  (graph.filter (fun p => n ∈ p.2)).map Prod.fst

/-- The guard `level is None or level > 1` of `recur`. -/
def levelCond : Option Nat → Bool
  | none => true
  | some l => decide (l > 1)

/-- The recursive call's level: `None if level is None else level - 1`. -/
def levelDec : Option Nat → Option Nat
  | none => none
  | some l => some (l - 1)

/-- The `for r in list(result)` loop of `recur`: `curId` is the heap cell
aliased by `currentList`, `rid` the cell aliased by this call's `result`,
and `f` the recursive call one level deeper.  The membership test
`r not in currentList` reads the current contents of `curId`; a child's
returned list is read back from the heap and appended to `rid`. -/
def loopGo (f : List (List String) → String → Option Nat → Nat →
      Option (Nat × List (List String)))
    (curId rid : Nat) (level' : Option Nat) :
    List String → List (List String) → Option (List (List String))
  | [], heap => some heap
  | r :: rs, heap =>
    if r ∈ heapGet heap curId then loopGo f curId rid level' rs heap
    else
      match f heap r level' rid with
      | none => none
      | some pr =>
        loopGo f curId rid level' rs
          (heapExtend pr.2 rid (heapGet pr.2 pr.1))

/-- Body of one invocation of `recur(n, level, currentList)`, with `f`
standing for the recursive call (one fuel unit deeper).  Returns the heap
cell aliased by the returned list, and the heap. -/
def recurBody (graph : List (String × List String))
    (dict : List (String × Nat)) (down : Bool)
    (f : List (List String) → String → Option Nat → Nat →
      Option (Nat × List (List String)))
    (heap : List (List String)) (n : String) (level : Option Nat)
    (curId : Nat) : Option (Nat × List (List String)) :=
  let pr :=
    if down then
      match lookupId dict n with
      | some i => (i, heap)
      | none => (heap.length, heap ++ [([] : List String)])
    else (heap.length, heap ++ [revEdges graph n])
  let rid := pr.1
  let heap1 := pr.2
  let snapshot := heapGet heap1 rid
  if levelCond level then
    match loopGo f curId rid (levelDec level) snapshot heap1 with
    | none => none
    | some h => some (rid, h)
  else some (rid, heap1)

/-- `recur` with an explicit recursion-depth budget. -/
def recurStep (graph : List (String × List String))
    (dict : List (String × Nat)) (down : Bool) :
    Nat → List (List String) → String → Option Nat → Nat →
      Option (Nat × List (List String))
  | 0 => fun _ _ _ _ => none
  | fuel + 1 => recurBody graph dict down (recurStep graph dict down fuel)

/-- Embedding of `Tree._recurList(node, descTreePart, level, down)`.
The initial heap holds the graph's adjacency lists followed by one cell
for the literal `[]` passed as the initial `currentList`.  Returns the
value of the resulting list, or `none` when no recursion depth
suffices. -/
def recurList (graph : List (String × List String)) (node : String)
    (level : Option Nat) (down : Bool) (fuel : Nat) :
    Option (List String) :=
  let heap0 := graph.map Prod.snd ++ [([] : List String)]
  match recurStep graph (dictOf graph) down fuel heap0 node level
      graph.length with
  | none => none
  | some pr => some (heapGet pr.2 pr.1)

/-! ## Claim C1: cycle behaviour of `Tree._recurList`

The mutually recursive call graph of the claim: `sub:A` calls `sub:B`
and `sub:B` calls `sub:A`. -/

/-- Execution graph with the two-cycle `sub:A` ↔ `sub:B`. -/
def cycGraph : List (String × List String) :=
  [("sub:A", ["sub:B"]), ("sub:B", ["sub:A"])]

/-- Initial heap for a traversal of `cycGraph`. -/
def cycHeap : List (List String) := [["sub:B"], ["sub:A"], []]

/-- Expanding `sub:A` (with `currentList` aliasing cell 1, i.e. the list
of `sub:B`) recurses into `sub:B` with an unchanged heap. -/
theorem cyc_stepA (n : Nat) :
    recurStep cycGraph (dictOf cycGraph) true (n + 1) cycHeap "sub:A"
        none 1 =
      (match (match recurStep cycGraph (dictOf cycGraph) true n cycHeap
                "sub:B" none 0 with
              | none => none
              | some pr =>
                loopGo (recurStep cycGraph (dictOf cycGraph) true n) 1 0
                  none [] (heapExtend pr.2 0 (heapGet pr.2 pr.1))) with
       | none => none
       | some h => some (0, h)) := by
  with_unfolding_all rfl

/-- Expanding `sub:B` (with `currentList` aliasing cell 0, i.e. the list
of `sub:A`) recurses back into `sub:A` with an unchanged heap. -/
theorem cyc_stepB (n : Nat) :
    recurStep cycGraph (dictOf cycGraph) true (n + 1) cycHeap "sub:B"
        none 0 =
      (match (match recurStep cycGraph (dictOf cycGraph) true n cycHeap
                "sub:A" none 1 with
              | none => none
              | some pr =>
                loopGo (recurStep cycGraph (dictOf cycGraph) true n) 0 1
                  none [] (heapExtend pr.2 1 (heapGet pr.2 pr.1))) with
       | none => none
       | some h => some (1, h)) := by
  with_unfolding_all rfl

/-- The descent alternates between `sub:A` and `sub:B` without ever
returning: no recursion depth suffices. -/
theorem cyc_mutual (fuel : Nat) :
    recurStep cycGraph (dictOf cycGraph) true fuel cycHeap "sub:A" none
        1 = none ∧
    recurStep cycGraph (dictOf cycGraph) true fuel cycHeap "sub:B" none
        0 = none := by
  induction fuel with
  | zero => exact ⟨rfl, rfl⟩
  | succ n ih =>
    refine ⟨?_, ?_⟩
    · rw [cyc_stepA n, ih.2]
    · rw [cyc_stepB n, ih.1]

/-- Claim C1.  The claim asserts that `Tree._recurList` with
`level=None` terminates on the cyclic call graph `sub:A` ↔ `sub:B` and
returns `{sub:A, sub:B}` as the downward closure of `sub:A`, because a
node already present in the accumulated result is never re-expanded.
In the code, the guard `r not in currentList` only consults the list of
the immediate parent call, so the descent `sub:A → sub:B → sub:A → …`
never repeats a membership hit and the recursion exceeds every finite
depth (Python raises `RecursionError`): for every fuel bound the
traversal fails to return. -/
theorem recurList_cycle_never_terminates (fuel : Nat) :
    recurList cycGraph "sub:A" none true fuel = none := by
  cases fuel with
  | zero => rfl
  | succ n =>
    show (match recurStep cycGraph (dictOf cycGraph) true (n + 1)
        (cycGraph.map Prod.snd ++ [([] : List String)]) "sub:A" none
        cycGraph.length with
      | none => none
      | some pr => some (heapGet pr.2 pr.1)) = none
    have hstep : recurStep cycGraph (dictOf cycGraph) true (n + 1)
        cycHeap "sub:A" none 2 =
        (match (match recurStep cycGraph (dictOf cycGraph) true n cycHeap
                  "sub:B" none 0 with
                | none => none
                | some pr =>
                  loopGo (recurStep cycGraph (dictOf cycGraph) true n) 2 0
                    none [] (heapExtend pr.2 0 (heapGet pr.2 pr.1))) with
         | none => none
         | some h => some (0, h)) := by
      with_unfolding_all rfl
    have hheap : cycGraph.map Prod.snd ++ [([] : List String)] =
        cycHeap := rfl
    have hlen : cycGraph.length = 2 := rfl
    rw [hheap, hlen, hstep, (cyc_mutual n).2]

/-! ## Claim C2: the `level` parameter of `Tree._recurList` -/

/-- Claim C2 (failing part).  The claim (and the docstring of
`_recurList`) states that `level=0` returns only the initial node
itself.  In the code, `level=0` merely fails the guard
`level is None or level > 1`, so the function returns the node's direct
edge list — the same answer as `level=1` — and never the node itself:
on the one-edge graph `{a: [b]}`, querying `a` at `level=0` yields
`[b]`, not `[a]`. -/
theorem recurList_level_zero_returns_edges :
    recurList [("a", ["b"])] "a" (some 0) true 1 = some ["b"] ∧
    recurList [("a", ["b"])] "a" (some 1) true 1 = some ["b"] ∧
    recurList [("a", ["b"])] "a" (some 0) true 1 ≠ some ["a"] := by
  refine ⟨by with_unfolding_all rfl, by with_unfolding_all rfl, ?_⟩
  intro h
  rw [show recurList [("a", ["b"])] "a" (some 0) true 1 = some ["b"] from
    by with_unfolding_all rfl] at h
  simp at h

/-! ## The compilation graph builder: `Tree._compilation_tree`

Include resolution (`tree.py` lines 191–227) classifies every tracked
file into at most one of three buckets via an `elif` chain (`same`,
`subdir`, `basename`), then discards buckets on ambiguity and selects
the first non-empty bucket. -/

/-- Files matching the `same` branch:
`os.path.normpath(inc) == os.path.normpath(f)`. -/
def sameMatches (files : List String) (inc : String) : List String :=
  files.filter (fun f => normpath inc = normpath f)

/-- Files matching the `subdir` branch (reached only when `same` did not
match): `(not os.path.isabs(f)) and os.path.realpath(inc) ==
os.path.realpath(os.path.join(os.path.dirname(inc), f))`. -/
def subdirMatches (cwd : String) (files : List String) (inc : String) :
    List String :=
  files.filter (fun f =>
    ¬(normpath inc = normpath f) ∧
    isabs f = false ∧
    realpath cwd inc = realpath cwd (joinPath (dirname inc) f))

/-- Files matching the `basename` branch (reached only when neither
`same` nor `subdir` matched):
`os.path.basename(inc) == os.path.basename(f)`. -/
def baseMatches (cwd : String) (files : List String) (inc : String) :
    List String :=
  files.filter (fun f =>
    ¬(normpath inc = normpath f) ∧
    ¬(isabs f = false ∧
      realpath cwd inc = realpath cwd (joinPath (dirname inc) f)) ∧
    basename inc = basename f)

/-- Bucket cascade and selection of `tree.py` lines 208–224, applied to
the three computed buckets: `if len(same) > 1: same = subdir = basename
= []`, `if len(subdir) > 1: subdir = basename = []`, `if len(basename) >
1: basename = []`, then the first non-empty bucket wins, else the raw
include string is kept with `found = False`. -/
def pickInc (inc : String) (same0 sub0 base0 : List String) :
    String × Bool :=
  let same1 := if same0.length > 1 then [] else same0
  let sub1 := if same0.length > 1 then [] else sub0
  let base1 := if same0.length > 1 then [] else base0
  let sub2 := if sub1.length > 1 then [] else sub1
  let base2 := if sub1.length > 1 then [] else base1
  let base3 := if base2.length > 1 then [] else base2
  if same1.length > 0 then (same1.headD "", true)
  else if sub2.length > 0 then (sub2.headD "", true)
  else if base3.length > 0 then (base3.headD "", true)
  else (inc, false)

/-- Resolution of one include target against the tracked files: the
resolved name (or the untouched raw string) and the `found` flag. -/
def resolveInc (cwd : String) (files : List String) (inc : String) :
    String × Bool :=
  pickInc inc (sameMatches files inc) (subdirMatches cwd files inc)
    (baseMatches cwd files inc)

/-- Tracked files defining `module:<modName>`
(`[f for f, scopes in self._scopes.items() if moduleScopePath in scopes]`). -/
def moduleDefFiles (scopes : List (String × List String))
    (modName : String) : List String :=
  (scopes.filter (fun fs => ("module:" ++ modName) ∈ fs.2)).map Prod.fst

/-- Compilation-tree contribution of one use-statement: the defining
file when it is unique, nothing otherwise (`tree.py` lines 235–244). -/
def useContribution (scopes : List (String × List String))
    (modName : String) : List String :=
  if (moduleDefFiles scopes modName).length = 1 then
    [(moduleDefFiles scopes modName).headD ""]
  else []

/-- Raw (pre-deduplication) compilation-tree edges of one file: the
resolved include targets of all its scopes, then the use-statement
edges.  `files` is the key set of the scope table, against which
includes are matched. -/
def compFileEdges (cwd : String) (files : List String)
    (scopes : List (String × List String))
    (includeList : List (String × List (String × List String)))
    (useList : List (String × List (String × List (String × List String))))
    (fn : String) : List String :=
  joinL ((lookupD includeList fn []).map
    (fun sp => sp.2.map (fun inc => (resolveInc cwd files inc).1))) ++
  joinL ((joinL ((lookupD useList fn []).map Prod.snd)).map
    (fun use => useContribution scopes use.1))

/-- Embedding of the `Tree._compilation_tree` computation: one entry per
tracked file, with duplicate edges removed (`list(set(depList))`). -/
def compilationTree (cwd : String)
    (scopes : List (String × List String))
    (includeList : List (String × List (String × List String)))
    (useList : List (String × List (String × List (String × List String)))) :
    List (String × List String) :=
  scopes.map (fun fs =>
    (fs.1,
     dedupList (compFileEdges cwd (scopes.map Prod.fst) scopes includeList
       useList fs.1)))

/-- Embedding of the `self._cache_incInScope` computation performed
alongside the compilation tree: each scope path is mapped to the list of
its includes that resolved to a tracked file. -/
def incInScopeOf (cwd : String) (files : List String)
    (includeList : List (String × List (String × List String))) :
    List (String × List String) :=
  includeList.foldl
    (fun acc fe =>
      fe.2.foldl
        (fun acc2 sp =>
          assocSet acc2 sp.1
            ((sp.2.map (resolveInc cwd files)).filterMap
              (fun r => if r.2 then some r.1 else none)))
        acc)
    []

/-! ## Claim C5: the tier cascade of include resolution -/

/-- Include selection as the amended claim describes it: ambiguity at a
tier discards that tier and every less specific tier, so the include
resolves exactly when the most specific non-empty tier holds exactly one
candidate; otherwise the raw string is kept as an unresolved literal. -/
def pickIncAmended (inc : String) (s d b : List String) : String × Bool :=
  if s.length = 1 then (s.headD "", true)
  else if s.length = 0 ∧ d.length = 1 then (d.headD "", true)
  else if s.length = 0 ∧ d.length = 0 ∧ b.length = 1 then
    (b.headD "", true)
  else (inc, false)

/-- Claim C5 (amended).  Ambiguity at a tier does not fall through to
the next tier: it discards that tier together with every less specific
tier.  An include resolves if and only if the most specific non-empty
tier (exact path, then subdirectory, then basename) contains exactly one
candidate; in every other case the raw include string is retained as an
unresolved literal pseudo-target (never dropped). -/
theorem include_tier_cascade (cwd : String) (files : List String)
    (inc : String) :
    resolveInc cwd files inc =
      pickIncAmended inc (sameMatches files inc)
        (subdirMatches cwd files inc) (baseMatches cwd files inc) := by
  rw [resolveInc]
  generalize sameMatches files inc = s
  generalize subdirMatches cwd files inc = d
  generalize baseMatches cwd files inc = b
  rcases s with _ | ⟨x, _ | ⟨x2, s⟩⟩ <;>
    rcases d with _ | ⟨y, _ | ⟨y2, d⟩⟩ <;>
      rcases b with _ | ⟨z, _ | ⟨z2, b⟩⟩ <;>
        simp [pickInc, pickIncAmended]

/-- Tracked-file list of the C5 counterexample. -/
def files5 : List String := ["x.inc", "d/../x.inc", "q/x.inc"]

/-- Claim C5 (counterexample).  For the include target `d/x.inc` over
the tracked files `files5`, the subdirectory tier holds two candidates
and the basename tier exactly one (`q/x.inc`).  The claim's fall-through
rule would resolve to `q/x.inc`; the code instead discards the basename
tier along with the ambiguous subdirectory tier and keeps the raw string
unresolved. -/
theorem include_tier_no_fallthrough_cex :
    sameMatches files5 "d/x.inc" = [] ∧
    (subdirMatches "/cwd" files5 "d/x.inc").length = 2 ∧
    baseMatches "/cwd" files5 "d/x.inc" = ["q/x.inc"] ∧
    resolveInc "/cwd" files5 "d/x.inc" = ("d/x.inc", false) ∧
    resolveInc "/cwd" files5 "d/x.inc" ≠ ("q/x.inc", true) := by
  decide

/-! ## Claim C6: the subdirectory tier and the including file -/

/-- Tracked-file list of the C6 scenario: the including file lives in
`sub/`, and `x.inc` exists both in `sub/` and in `other/`. -/
def files6 : List String := ["sub/a.F90", "sub/x.inc", "other/x.inc"]

/-- Scope table of the C6 scenario. -/
def scopes6 : List (String × List String) :=
  [("sub/a.F90", ["sub:A"]), ("sub/x.inc", ["sub:X"]),
   ("other/x.inc", ["sub:Y"])]

/-- Include table of the C6 scenario: `sub/a.F90` contains
`INCLUDE 'x.inc'`. -/
def includeList6 : List (String × List (String × List String)) :=
  [("sub/a.F90", [("sub:A", ["x.inc"])]), ("sub/x.inc", [("sub:X", [])]),
   ("other/x.inc", [("sub:Y", [])])]

/-- Claim C6 (counterexample).  The claim predicts that the include
resolves through the subdirectory tier to `sub/x.inc`; in the code the
subdirectory tier compares `realpath(inc)` with
`realpath(join(dirname(inc), f))`, which involves only the include
string's own directory (empty for `x.inc`) and never the including
file's directory, so no file matches that tier and `sub/x.inc` is not
an edge of `sub/a.F90`. -/
theorem include_subdir_claim_cex :
    resolveInc "/cwd" files6 "x.inc" ≠ ("sub/x.inc", true) ∧
    ¬("sub/x.inc" ∈
      lookupD (compilationTree "/cwd" scopes6 includeList6 [])
        "sub/a.F90" []) := by
  decide

/-- Claim C6 (amended).  For `INCLUDE 'x.inc'` issued from
`sub/a.F90`, the subdirectory tier matches no tracked file (it resolves
the candidates against the include string's own directory, not the
including file's), both `sub/x.inc` and `other/x.inc` match only the
basename tier, which is therefore ambiguous, and the raw string `x.inc`
is kept as the unresolved literal edge of `sub/a.F90`. -/
theorem include_subdir_tier_unused :
    subdirMatches "/cwd" files6 "x.inc" = [] ∧
    baseMatches "/cwd" files6 "x.inc" = ["sub/x.inc", "other/x.inc"] ∧
    resolveInc "/cwd" files6 "x.inc" = ("x.inc", false) ∧
    lookupD (compilationTree "/cwd" scopes6 includeList6 [])
      "sub/a.F90" [] = ["x.inc"] := by
  decide

/-! ## Claim C4: use-statement edges of the compilation graph -/

/-- Looking a key up in a table whose entries are generated from the key
list returns the generated value. -/
theorem lookupD_map_self {α β : Type} (F : String → α) (d : α) :
    ∀ (l : List (String × β)) (k : String), k ∈ l.map Prod.fst →
      lookupD (l.map (fun fs => (fs.1, F fs.1))) k d = F k := by
  intro l
  induction l with
  | nil => intro k hk; simp at hk
  | cons p rest ih =>
    intro k hk
    simp only [List.map_cons, lookupD]
    by_cases hp : p.1 = k
    · rw [if_pos hp, hp]
    · rw [if_neg hp]
      refine ih k ?_
      rcases List.mem_cons.mp hk with h | h
      · exact absurd h.symm hp
      · exact h

/-- Claim C4.  For every use-statement naming module `modName` in any
scope of a tracked file `fn`: when exactly one tracked file `g` defines
`module:<modName>`, the compilation graph holds the edge `fn → g`; when
zero or several files define it, the use-statement contributes no edge
at all (graph construction itself is total and unaffected). -/
theorem comp_use_edge_unique_module (cwd : String)
    (scopes : List (String × List String))
    (includeList : List (String × List (String × List String)))
    (useList : List (String × List (String × List (String × List String))))
    (fn modName : String) (only : List String) (g : String)
    (hfn : fn ∈ scopes.map Prod.fst)
    (hmem : (modName, only) ∈ joinL ((lookupD useList fn []).map Prod.snd)) :
    (moduleDefFiles scopes modName = [g] →
      g ∈ lookupD (compilationTree cwd scopes includeList useList) fn []) ∧
    ((moduleDefFiles scopes modName).length ≠ 1 →
      useContribution scopes modName = []) := by
  constructor
  · intro hdef
    rw [compilationTree,
      lookupD_map_self
        (fun k => dedupList (compFileEdges cwd (scopes.map Prod.fst)
          scopes includeList useList k)) [] scopes fn hfn,
      mem_dedupList, compFileEdges]
    refine List.mem_append.mpr (Or.inr ?_)
    rw [mem_joinL]
    refine ⟨useContribution scopes modName, ?_, ?_⟩
    · exact List.mem_map.mpr ⟨(modName, only), hmem, rfl⟩
    · rw [useContribution, hdef]
      simp
  · intro hlen
    rw [useContribution, if_neg hlen]

/-- Scope table of the C4 witness: one file uses module `FOO`, defined
in exactly one other file. -/
def scopes4 : List (String × List String) :=
  [("c.f90", ["sub:C"]), ("m.f90", ["module:FOO"])]

/-- Scope table of the C4 witness's ambiguous variant: two files define
module `FOO`. -/
def scopes4b : List (String × List String) :=
  [("c.f90", ["sub:C"]), ("m.f90", ["module:FOO"]),
   ("m2.f90", ["module:FOO"])]

/-- Use table of the C4 witness: `c.f90` has `USE FOO` in `sub:C`. -/
def useList4 : List (String × List (String × List (String × List String))) :=
  [("c.f90", [("sub:C", [("FOO", [])])])]

/-- Witness for C4 at concrete tables: the unique-definition case adds
the edge `c.f90 → m.f90`; the two-definition case contributes
nothing. -/
theorem comp_use_edge_unique_module_witness :
    "m.f90" ∈ lookupD (compilationTree "/cwd" scopes4 [] useList4)
      "c.f90" [] ∧
    useContribution scopes4b "FOO" = [] :=
  ⟨(comp_use_edge_unique_module "/cwd" scopes4 [] useList4 "c.f90" "FOO"
      [] "m.f90" (by decide) (by decide)).1 (by decide),
   (comp_use_edge_unique_module "/cwd" scopes4b [] useList4 "c.f90" "FOO"
      [] "m.f90" (by decide) (by decide)).2 (by decide)⟩

/-! ## The execution graph builder: `Tree._execution_tree`

Resolution of one call (`tree.py` lines 261–338).  The five match lists
(`foundInUse`, `foundElsewhere`, `foundInInclude`, `foundInContains`,
`foundInSameScope`) accumulate over the two kinds — the canonical kind
of the call first, then `interface`. -/

/-- Every scope path of every tracked file
(`[scopePath for _, l in self._scopes.items() for scopePath in l]`). -/
def allScopesOf (scopes : List (String × List String)) : List String :=
  joinL (scopes.map Prod.snd)

/-- Use statements visible to `scopePath` in `filename`: those of the
scope itself and of every enclosing scope
(`sc == scopePath or scopePath.startswith(sc + '/')`). -/
def visibleUses
    (useList : List (String × List (String × List (String × List String))))
    (filename scopePath : String) : List (String × List String) :=
  joinL (((lookupD useList filename []).filter
    (fun sc => sc.1 = scopePath ∨ strStarts scopePath (sc.1 ++ "/"))).map
    Prod.snd)

/-- `foundInUse` for one kind: a use with an `ONLY` list matches when
the called name is listed and the target scope exists; a use without
`ONLY` matches once per tracked file containing the target scope. -/
def useMatchesK (scopes : List (String × List String))
    (allScopes : List String) (uses : List (String × List String))
    (kind c : String) : List String :=
  joinL (uses.map (fun mu =>
    let callScope := "module:" ++ mu.1 ++ "/" ++ kind ++ ":" ++ c
    if mu.2.length > 0 then
      if c ∈ mu.2 ∧ callScope ∈ allScopes then [callScope] else []
    else
      (scopes.filter (fun fs => callScope ∈ fs.2)).map
        (fun _ => callScope)))

/-- `foundElsewhere` for one kind: a top-level unit `<kind>:<c>` found
once per tracked file defining it. -/
def elsewhereMatchesK (scopes : List (String × List String))
    (kind c : String) : List String :=
  (scopes.filter (fun fs => (kind ++ ":" ++ c) ∈ fs.2)).map
    (fun _ => kind ++ ":" ++ c)

/-- `foundInInclude` for one kind: `<kind>:<c>` found once per resolved
include file of the calling scope that defines it. -/
def includeMatchesK (scopes : List (String × List String))
    (incInScope : List (String × List String)) (scopePath kind c : String) :
    List String :=
  ((lookupD incInScope scopePath []).filter
    (fun incFile => (kind ++ ":" ++ c) ∈ lookupD scopes incFile [])).map
    (fun _ => kind ++ ":" ++ c)

/-- `foundInContains` for one kind: `<scopePath>/<kind>:<c>` defined in
the calling file. -/
def containsMatchesK (scopes : List (String × List String))
    (filename scopePath kind c : String) : List String :=
  if (scopePath ++ "/" ++ kind ++ ":" ++ c) ∈ lookupD scopes filename []
  then [scopePath ++ "/" ++ kind ++ ":" ++ c]
  else []

/-- `foundInSameScope` for one kind: the sibling
`<parent of scopePath>/<kind>:<c>` (or top-level `<kind>:<c>` when the
calling scope is top-level) defined in the calling file. -/
def sameScopeMatchesK (scopes : List (String × List String))
    (filename scopePath kind c : String) : List String :=
  let callScope :=
    if hasSlash scopePath then upDir scopePath ++ "/" ++ kind ++ ":" ++ c
    else kind ++ ":" ++ c
  if callScope ∈ lookupD scopes filename [] then [callScope] else []

/-- The deduplicated concatenation
`list(set(foundInUse)) + foundInInclude + foundInContains +
foundInSameScope` whose length drives the selection policy. -/
def callCandidates (scopes : List (String × List String))
    (useList : List (String × List (String × List (String × List String))))
    (incInScope : List (String × List String))
    (canonicKind filename scopePath c : String) : List String :=
  let allScopes := allScopesOf scopes
  let uses := visibleUses useList filename scopePath
  dedupList (useMatchesK scopes allScopes uses canonicKind c ++
    useMatchesK scopes allScopes uses "interface" c) ++
  (includeMatchesK scopes incInScope scopePath canonicKind c ++
    includeMatchesK scopes incInScope scopePath "interface" c) ++
  (containsMatchesK scopes filename scopePath canonicKind c ++
    containsMatchesK scopes filename scopePath "interface" c) ++
  (sameScopeMatchesK scopes filename scopePath canonicKind c ++
    sameScopeMatchesK scopes filename scopePath "interface" c)

/-- The fallback list `foundElsewhere`, accumulated over both kinds. -/
def globalCandidates (scopes : List (String × List String))
    (canonicKind c : String) : List String :=
  elsewhereMatchesK scopes canonicKind c ++
    elsewhereMatchesK scopes "interface" c

/-- Resolution of one call of name `c` in scope `scopePath` of file
`filename` (`tree.py` lines 316–338): the list of targets appended to
the execution tree for this call (`['??']`, a single resolved target, or
nothing). -/
def resolveCall (scopes : List (String × List String))
    (useList : List (String × List (String × List (String × List String))))
    (incInScope : List (String × List String))
    (canonicKind filename scopePath c : String) : List String :=
  let cands := callCandidates scopes useList incInScope canonicKind
    filename scopePath c
  let fel := globalCandidates scopes canonicKind c
  if cands.length > 1 then ["??"]
  else if cands.length = 1 then
    if canonicKind ≠ "func" ∨ cands.headD "" ∈ allScopesOf scopes then
      [cands.headD ""]
    else []
  else if fel.length > 1 then []
  else if fel.length = 1 then [fel.headD ""]
  else []

/-- Raw execution-tree edges appended to the entry of `sp` while
processing calls of kind `canonicKind` from the table `progList`
(`self._callList` or `self._funcList`). -/
def rawCallEdges (scopes : List (String × List String))
    (useList : List (String × List (String × List (String × List String))))
    (incInScope : List (String × List String)) (canonicKind : String)
    (progList : List (String × List (String × List String)))
    (sp : String) : List String :=
  joinL (progList.map (fun fe =>
    joinL (((fe.2.filter (fun q => q.1 = sp)).map
      (fun q => joinL ((dedupList q.2).map
        (fun c => resolveCall scopes useList incInScope canonicKind fe.1
          sp c)))))))

/-- The code's own test for a named-interface edge target:
`item.split('/')[-1].split(':')` begins with `interface` and its name is
not `--UNKNOWN--`. -/
def isNamedInterface (item : String) : Bool :=
  let parts := splitOnChar ':' (lastSeg item)
  parts.getD 0 "" = "interface" ∧ parts.getD 1 "" ≠ "--UNKNOWN--"

/-- Tracked files whose scope list contains the interface's path
(`[k for (k, v) in self._scopes.items() if item in v]`). -/
def interfaceFiles (scopes : List (String × List String))
    (item : String) : List String :=
  (scopes.filter (fun kv => item ∈ kv.2)).map Prod.fst

/-- Replacement edges for the named interface `item`, declared in the
file whose scope list is `fscopes`: one edge per binding nested under
the interface, preferring `sub.rsplit('/', 2)[0] + '/' +
sub.split('/')[-1]` when that path exists in the file, else the bare
last segment. -/
def interfaceBindings (fscopes : List String) (item : String) :
    List String :=
  (fscopes.filter (fun sub => strStarts sub (item ++ "/"))).map
    (fun sub =>
      let subscopeIn := rsplitHead2 sub ++ "/" ++ lastSeg sub
      if subscopeIn ∈ fscopes then subscopeIn else lastSeg sub)

/-- Processing of one snapshot item of the interface-flattening loop
(`tree.py` lines 344–359): when the item is a named interface declared
in exactly one tracked file, its first occurrence is removed from the
current list and the replacement edges are appended; otherwise the list
is unchanged. -/
def flattenItem (scopes : List (String × List String))
    (acc : List String) (item : String) : List String :=
  if isNamedInterface item then
    if (interfaceFiles scopes item).length = 1 then
      (acc.erase item) ++
        interfaceBindings
          (lookupD scopes ((interfaceFiles scopes item).headD "") []) item
    else acc
  else acc

/-- The interface-flattening pass over one execution list: the loop
iterates over a snapshot of the original list while removing from and
appending to the current list. -/
def flattenList (scopes : List (String × List String))
    (execList : List String) : List String :=
  execList.foldl (flattenItem scopes) execList

/-- Embedding of the `Tree._execution_tree` computation: one entry per
scope path, the call and function tables resolved, named interfaces
flattened, duplicates removed. -/
def executionTree (scopes : List (String × List String))
    (useList : List (String × List (String × List (String × List String))))
    (callList funcList : List (String × List (String × List String)))
    (incInScope : List (String × List String)) :
    List (String × List String) :=
  (allScopesOf scopes).map (fun sp =>
    (sp,
     dedupList (flattenList scopes
       (rawCallEdges scopes useList incInScope "sub" callList sp ++
        rawCallEdges scopes useList incInScope "func" funcList sp))))

/-! ## Claim C3: the call-resolution selection policy

Every candidate produced by the four scoped categories is a scope path
of some tracked file, which makes the `r in allScopes` guard of the
function-kind branch vacuous. -/

/-- A scope path stored for some file is in the global scope list. -/
theorem mem_allScopesOf {scopes : List (String × List String)}
    {fs : String × List String} {x : String} (hfs : fs ∈ scopes)
    (hx : x ∈ fs.2) : x ∈ allScopesOf scopes := by
  rw [allScopesOf, mem_joinL]
  exact ⟨fs.2, List.mem_map.mpr ⟨fs, hfs, rfl⟩, hx⟩

/-- A scope path found through a file lookup is in the global scope
list. -/
theorem lookupD_mem_allScopesOf {scopes : List (String × List String)}
    {key x : String} (h : x ∈ lookupD scopes key []) :
    x ∈ allScopesOf scopes := by
  obtain ⟨v, hv, hx⟩ := mem_lookupD h
  exact mem_allScopesOf hv hx

/-- `foundInUse` candidates are scope paths of tracked files. -/
theorem useMatchesK_mem_allScopes {scopes : List (String × List String)}
    {uses : List (String × List String)} {kind c y : String}
    (h : y ∈ useMatchesK scopes (allScopesOf scopes) uses kind c) :
    y ∈ allScopesOf scopes := by
  rw [useMatchesK, mem_joinL] at h
  obtain ⟨l, hl, hy⟩ := h
  obtain ⟨mu, _, rfl⟩ := List.mem_map.mp hl
  by_cases hlen : mu.2.length > 0
  · rw [if_pos hlen] at hy
    by_cases hcond : c ∈ mu.2 ∧
        ("module:" ++ mu.1 ++ "/" ++ kind ++ ":" ++ c) ∈
          allScopesOf scopes
    · rw [if_pos hcond] at hy
      rw [List.mem_singleton.mp hy]
      exact hcond.2
    · rw [if_neg hcond] at hy
      simp at hy
  · rw [if_neg hlen] at hy
    obtain ⟨fs, hfs, rfl⟩ := List.mem_map.mp hy
    have hfs' := List.mem_filter.mp hfs
    exact mem_allScopesOf hfs'.1 (of_decide_eq_true hfs'.2)

/-- `foundInInclude` candidates are scope paths of tracked files. -/
theorem includeMatchesK_mem_allScopes
    {scopes incInScope : List (String × List String)}
    {scopePath kind c y : String}
    (h : y ∈ includeMatchesK scopes incInScope scopePath kind c) :
    y ∈ allScopesOf scopes := by
  rw [includeMatchesK] at h
  obtain ⟨incFile, hf, rfl⟩ := List.mem_map.mp h
  have hf' := List.mem_filter.mp hf
  exact lookupD_mem_allScopesOf (of_decide_eq_true hf'.2)

/-- `foundInContains` candidates are scope paths of tracked files. -/
theorem containsMatchesK_mem_allScopes
    {scopes : List (String × List String)}
    {filename scopePath kind c y : String}
    (h : y ∈ containsMatchesK scopes filename scopePath kind c) :
    y ∈ allScopesOf scopes := by
  rw [containsMatchesK] at h
  by_cases hc : (scopePath ++ "/" ++ kind ++ ":" ++ c) ∈
      lookupD scopes filename []
  · rw [if_pos hc] at h
    rw [List.mem_singleton.mp h]
    exact lookupD_mem_allScopesOf hc
  · rw [if_neg hc] at h
    simp at h

/-- `foundInSameScope` candidates are scope paths of tracked files. -/
theorem sameScopeMatchesK_mem_allScopes
    {scopes : List (String × List String)}
    {filename scopePath kind c y : String}
    (h : y ∈ sameScopeMatchesK scopes filename scopePath kind c) :
    y ∈ allScopesOf scopes := by
  rw [sameScopeMatchesK] at h
  set callScope :=
    if hasSlash scopePath then upDir scopePath ++ "/" ++ kind ++ ":" ++ c
    else kind ++ ":" ++ c with hcs
  by_cases hc : callScope ∈ lookupD scopes filename []
  · rw [if_pos hc] at h
    rw [List.mem_singleton.mp h]
    exact lookupD_mem_allScopesOf hc
  · rw [if_neg hc] at h
    simp at h

/-- Every candidate of the four scoped categories is a scope path of
some tracked file, so the `r in allScopes` guard of the function-kind
branch never rejects a candidate. -/
theorem callCandidates_mem_allScopes {scopes : List (String × List String)}
    {useList : List (String × List (String × List (String × List String)))}
    {incInScope : List (String × List String)}
    {canonicKind filename scopePath c y : String}
    (h : y ∈ callCandidates scopes useList incInScope canonicKind
      filename scopePath c) :
    y ∈ allScopesOf scopes := by
  rw [callCandidates] at h
  rcases List.mem_append.mp h with h1 | h2
  · rcases List.mem_append.mp h1 with h3 | h4
    · rcases List.mem_append.mp h3 with h5 | h6
      · rcases List.mem_append.mp (mem_dedupList.mp h5) with h7 | h7 <;>
          exact useMatchesK_mem_allScopes h7
      · rcases List.mem_append.mp h6 with h7 | h7 <;>
          exact includeMatchesK_mem_allScopes h7
    · rcases List.mem_append.mp h4 with h7 | h7 <;>
        exact containsMatchesK_mem_allScopes h7
  · rcases List.mem_append.mp h2 with h7 | h7 <;>
      exact sameScopeMatchesK_mem_allScopes h7

/-- Claim C3.  The selection policy of one call site: a combined count
above one across the USE/include/CONTAINS/same-scope categories records
the sentinel `??`; a count of exactly one records that single match
(for function-kind calls too, since every scoped candidate is a known
scope path); a count of zero falls back to the globally-accessible
category, whose unique match is accepted while two or more matches
produce no edge at all. -/
theorem exec_call_selection_policy (scopes : List (String × List String))
    (useList : List (String × List (String × List (String × List String))))
    (incInScope : List (String × List String))
    (canonicKind filename scopePath c : String) :
    ((callCandidates scopes useList incInScope canonicKind filename
        scopePath c).length > 1 →
      resolveCall scopes useList incInScope canonicKind filename
        scopePath c = ["??"]) ∧
    ((callCandidates scopes useList incInScope canonicKind filename
        scopePath c).length = 1 →
      resolveCall scopes useList incInScope canonicKind filename
        scopePath c =
        [(callCandidates scopes useList incInScope canonicKind filename
          scopePath c).headD ""]) ∧
    ((callCandidates scopes useList incInScope canonicKind filename
        scopePath c).length = 0 ∧
        (globalCandidates scopes canonicKind c).length = 1 →
      resolveCall scopes useList incInScope canonicKind filename
        scopePath c = [(globalCandidates scopes canonicKind c).headD ""]) ∧
    ((callCandidates scopes useList incInScope canonicKind filename
        scopePath c).length = 0 ∧
        (globalCandidates scopes canonicKind c).length > 1 →
      resolveCall scopes useList incInScope canonicKind filename
        scopePath c = []) := by
  refine ⟨?_, ?_, ?_, ?_⟩
  · intro h
    rw [resolveCall, if_pos h]
  · intro h
    have hmem : (callCandidates scopes useList incInScope canonicKind
        filename scopePath c).headD "" ∈
        callCandidates scopes useList incInScope canonicKind filename
          scopePath c := by
      rw [eq_singleton_of_length_one "" h]
      simp
    rw [resolveCall, if_neg (by omega), if_pos h,
      if_pos (Or.inr (callCandidates_mem_allScopes hmem))]
  · rintro ⟨h0, h1⟩
    rw [resolveCall, if_neg (by omega), if_neg (by omega),
      if_neg (by omega), if_pos h1]
  · rintro ⟨h0, h1⟩
    rw [resolveCall, if_neg (by omega), if_neg (by omega), if_pos h1]

/-- Scope table with an ambiguous call (CONTAINS and same-scope both
match `C`). -/
def scopes3a : List (String × List String) :=
  [("a.f90", ["sub:S", "sub:C", "sub:S/sub:C"])]

/-- Scope table with a unique same-scope match for `C`. -/
def scopes3b : List (String × List String) :=
  [("a.f90", ["sub:S", "sub:C"])]

/-- Scope table with a unique globally-accessible match for `G`. -/
def scopes3c : List (String × List String) :=
  [("a.f90", ["sub:S"]), ("b.f90", ["sub:G"])]

/-- Scope table with two globally-accessible matches for `G`. -/
def scopes3d : List (String × List String) :=
  [("a.f90", ["sub:S"]), ("b.f90", ["sub:G"]), ("d.f90", ["sub:G"])]

/-- Witness for C3: the four branches of the selection policy at
concrete project states. -/
theorem exec_call_selection_policy_witness :
    resolveCall scopes3a [] [] "sub" "a.f90" "sub:S" "C" = ["??"] ∧
    resolveCall scopes3b [] [] "sub" "a.f90" "sub:S" "C" =
      [(callCandidates scopes3b [] [] "sub" "a.f90" "sub:S" "C").headD
        ""] ∧
    resolveCall scopes3c [] [] "sub" "a.f90" "sub:S" "G" =
      [(globalCandidates scopes3c "sub" "G").headD ""] ∧
    resolveCall scopes3d [] [] "sub" "a.f90" "sub:S" "G" = [] :=
  ⟨(exec_call_selection_policy scopes3a [] [] "sub" "a.f90" "sub:S"
      "C").1 (by decide),
   (exec_call_selection_policy scopes3b [] [] "sub" "a.f90" "sub:S"
      "C").2.1 (by decide),
   (exec_call_selection_policy scopes3c [] [] "sub" "a.f90" "sub:S"
      "G").2.2.1 (by decide),
   (exec_call_selection_policy scopes3d [] [] "sub" "a.f90" "sub:S"
      "G").2.2.2 (by decide)⟩

/-! ## Claim C7: interface flattening -/

/-- Claim C7 (amended).  An edge whose target is a named interface is
replaced by one edge per binding grouped by the interface — preferring,
when it exists in the defining file, the path obtained by dropping the
binding's second-to-last (interface) component, else the binding's bare
unit name — but only when the interface's scope path is found in exactly
one tracked file; when zero or several files contain that path the edge
is left unchanged, so a named interface can remain a final edge
target. -/
theorem interface_flattening_unique_file
    (scopes : List (String × List String)) (acc : List String)
    (item : String) :
    (isNamedInterface item = true →
      ((interfaceFiles scopes item).length = 1 →
        flattenItem scopes acc item =
          (acc.erase item) ++
            interfaceBindings
              (lookupD scopes ((interfaceFiles scopes item).headD "") [])
              item) ∧
      ((interfaceFiles scopes item).length ≠ 1 →
        flattenItem scopes acc item = acc)) ∧
    (isNamedInterface item = false → flattenItem scopes acc item = acc) := by
  refine ⟨fun hint => ⟨fun hone => ?_, fun hmany => ?_⟩, fun hnot => ?_⟩
  · rw [flattenItem, if_pos hint, if_pos hone]
  · rw [flattenItem, if_pos hint, if_neg hmany]
  · rw [flattenItem, if_neg (by rw [hnot]; exact Bool.false_ne_true)]

/-- Scope table of the C7 counterexample: the interface
`module:M/interface:I` is declared in two tracked files. -/
def scopes7 : List (String × List String) :=
  [("a.f90", ["module:M", "module:M/interface:I"]),
   ("b.f90", ["module:M", "module:M/interface:I"]),
   ("c.f90", ["sub:S"])]

/-- Use table of the C7 counterexample: `sub:S` of `c.f90` has
`USE M, ONLY: I`. -/
def useList7 : List (String × List (String × List (String × List String))) :=
  [("c.f90", [("sub:S", [("M", ["I"])])])]

/-- Call table of the C7 counterexample: `sub:S` calls `I`. -/
def callList7 : List (String × List (String × List String)) :=
  [("c.f90", [("sub:S", ["I"])])]

/-- Include cache of the C7 scenarios: `sub:S` has no resolved
includes. -/
def incInScope7 : List (String × List String) := [("sub:S", [])]

/-- Claim C7 (counterexample).  The call to `I` resolves (via the USE
category) to the named interface `module:M/interface:I`, which is
declared in two tracked files; the flattening pass requires a unique
declaring file and therefore leaves the edge untouched, so the final
execution graph keeps a named interface as an edge target, which the
claim says never happens. -/
theorem interface_target_remains_cex :
    lookupD (executionTree scopes7 useList7 callList7 [] incInScope7)
      "sub:S" [] = ["module:M/interface:I"] ∧
    isNamedInterface "module:M/interface:I" = true ∧
    (interfaceFiles scopes7 "module:M/interface:I").length = 2 := by
  decide

/-- Scope table of the C7 witness: the interface is declared in exactly
one file and groups the bindings `sub:P1` (with a sibling
`module:M/sub:P1` in the same scope) and `sub:P2` (bare). -/
def scopes7b : List (String × List String) :=
  [("a.f90",
    ["module:M", "module:M/interface:I", "module:M/interface:I/sub:P1",
     "module:M/interface:I/sub:P2", "module:M/sub:P1"]),
   ("c.f90", ["sub:S"])]

/-- Witness for C7 (amended): with a unique declaring file the
interface edge is replaced by the two binding edges, and with two
declaring files (`scopes7`) the edge is left unchanged. -/
theorem interface_flattening_unique_file_witness :
    flattenItem scopes7b ["module:M/interface:I"] "module:M/interface:I" =
      (["module:M/interface:I"].erase "module:M/interface:I") ++
        interfaceBindings
          (lookupD scopes7b
            ((interfaceFiles scopes7b "module:M/interface:I").headD "")
            [])
          "module:M/interface:I" ∧
    flattenItem scopes7 ["module:M/interface:I"] "module:M/interface:I" =
      ["module:M/interface:I"] :=
  ⟨((interface_flattening_unique_file scopes7b ["module:M/interface:I"]
      "module:M/interface:I").1 (by decide)).1 (by decide),
   ((interface_flattening_unique_file scopes7 ["module:M/interface:I"]
      "module:M/interface:I").1 (by decide)).2 (by decide)⟩

/-! ## The Project Index: `Tree` state, `update`, `fromJson`, queries

The mutable attributes of a `Tree` object.  The three `_cache_*`
attributes are `None` (no cached value) or a computed graph. -/

/-- The record extracted from one file by `Tree._analyseFile`'s parsing
branch: scope list, include/use/call/function tables keyed by scope
path. -/
structure FileRecord where
  units : List String
  includes : List (String × List String)
  uses : List (String × List (String × List String))
  calls : List (String × List String)
  funcs : List (String × List String)
  deriving DecidableEq

/-- The mutable state of a `Tree` object. -/
structure TreeState where
  cwd : String
  scopes : List (String × List String)
  includeList : List (String × List (String × List String))
  useList : List (String × List (String × List (String × List String)))
  callList : List (String × List (String × List String))
  funcList : List (String × List (String × List String))
  cacheComp : Option (List (String × List String))
  cacheExec : Option (List (String × List String))
  cacheInc : Option (List (String × List String))
  deriving DecidableEq

/-- The persisted description document read by `Tree.fromJson`. -/
structure TreeDoc where
  cwd : String
  scopes : List (String × List String)
  includeList : List (String × List (String × List String))
  useList : List (String × List (String × List (String × List String)))
  callList : List (String × List (String × List String))
  funcList : List (String × List (String × List String))
  deriving DecidableEq

/-- `Tree.isValid`: `len(self._scopes) != 0`. -/
def isValid (st : TreeState) : Bool := st.scopes.length != 0

/-- `Tree._emptyCache`: the three cached values are reset to `None`. -/
def emptyCache (st : TreeState) : TreeState :=
  { st with cacheComp := none, cacheExec := none, cacheInc := none }

/-- Embedding of `Tree._analyseFile` for a file name argument.  `disk`
lists the files for which `os.path.isfile` is true, and `parse` is the
parsing collaborator (the Unit Extractor) producing the file's record.
When the file exists, its record replaces any previous one under the
`./`-stripped name.  When it does not, the code enters the removal
branch `if filename in self._scopes:`, which reads the local variable
`filename` that is only assigned in the parsing branch (the parameter is
named `file`), so Python raises `UnboundLocalError` before any record
is deleted; the error is the second component. -/
def analyseFile (disk : List String) (parse : String → FileRecord)
    (st : TreeState) (file : String) : TreeState × Option String :=
  if file ∈ disk then
    let fn := stripDotSlash file
    let r := parse file
    ({ st with
        scopes := assocSet st.scopes fn r.units,
        includeList := assocSet st.includeList fn r.includes,
        useList := assocSet st.useList fn r.uses,
        callList := assocSet st.callList fn r.calls,
        funcList := assocSet st.funcList fn r.funcs }, none)
  else (st, some "UnboundLocalError")

/-- The `for onefile in file:` loop of `Tree.update`: analyses files in
order until the first raised error, which propagates with the mutations
already performed kept in place. -/
def foldAnalyse (disk : List String) (parse : String → FileRecord) :
    TreeState → List String → TreeState × Option String
  | st, [] => (st, none)
  | st, f :: fs =>
    match analyseFile disk parse st f with
    | (st1, none) => foldAnalyse disk parse st1 fs
    | (st1, some e) => (st1, some e)

/-- Embedding of `Tree.update`: nothing happens unless the tree is
valid; a non-empty file list is analysed file by file after which the
caches are emptied; an error raised mid-loop propagates before
`_emptyCache` runs. -/
def updateRun (disk : List String) (parse : String → FileRecord)
    (st : TreeState) (files : List String) : TreeState × Option String :=
  if isValid st then
    if files.length ≠ 0 then
      match foldAnalyse disk parse st files with
      | (st1, some e) => (st1, some e)
      | (st1, none) => (emptyCache st1, none)
    else (st, none)
  else (st, none)

/-- Embedding of `Tree.fromJson`: the six stored attributes are replaced
wholesale from the document; the three `_cache_*` attributes are not
touched. -/
def fromJsonModel (st : TreeState) (doc : TreeDoc) : TreeState :=
  { cwd := doc.cwd, scopes := doc.scopes,
    includeList := doc.includeList, useList := doc.useList,
    callList := doc.callList, funcList := doc.funcList,
    cacheComp := st.cacheComp, cacheExec := st.cacheExec,
    cacheInc := st.cacheInc }

/-- Embedding of the `Tree._compilation_tree` property getter: when the
tree is valid and no compilation graph is cached, the graph and the
include-resolution cache are computed and stored; otherwise the cached
value (possibly `None`) is returned unchanged. -/
def compTreeQuery (cwd : String) (st : TreeState) :
    Option (List (String × List String)) × TreeState :=
  if isValid st = true ∧ st.cacheComp = none then
    let t := compilationTree cwd st.scopes st.includeList st.useList
    (some t,
     { st with
        cacheComp := some t,
        cacheInc := some (incInScopeOf cwd (st.scopes.map Prod.fst)
          st.includeList) })
  else (st.cacheComp, st)

/-! ## Claim C8: cache invalidation on record mutation -/

/-- Claim C8 (amended).  `update` empties all three caches after
successfully re-analysing a non-empty set of files on a valid tree;
`fromJson` replaces the file records wholesale but does not touch the
caches — so a bulk load leaves any previously cached graph in place. -/
theorem update_clears_caches_load_does_not (disk : List String)
    (parse : String → FileRecord) (st : TreeState) (files : List String)
    (doc : TreeDoc) :
    (isValid st = true → files ≠ [] →
      (updateRun disk parse st files).2 = none →
      ((updateRun disk parse st files).1.cacheComp = none ∧
       (updateRun disk parse st files).1.cacheExec = none ∧
       (updateRun disk parse st files).1.cacheInc = none)) ∧
    ((fromJsonModel st doc).cacheComp = st.cacheComp ∧
     (fromJsonModel st doc).cacheExec = st.cacheExec ∧
     (fromJsonModel st doc).cacheInc = st.cacheInc ∧
     (fromJsonModel st doc).scopes = doc.scopes) := by
  constructor
  · intro h1 h2 h3
    have hlen : files.length ≠ 0 := by
      cases files with
      | nil => exact absurd rfl h2
      | cons f fs => simp
    rw [updateRun, if_pos h1, if_pos hlen] at h3 ⊢
    rcases hfold : foldAnalyse disk parse st files with ⟨st1, oe⟩
    rw [hfold] at h3
    cases oe with
    | some e => exact Option.noConfusion h3
    | none => exact ⟨rfl, rfl, rfl⟩
  · exact ⟨rfl, rfl, rfl, rfl⟩

/-- Parsing oracle of the concrete scenarios: every file yields an empty
record (its content is irrelevant to the properties tested). -/
def parse0 : String → FileRecord := fun _ => ⟨[], [], [], [], []⟩

/-- Pre-load state of the C8 counterexample: `a.f90` has `USE B` and
`b.f90` defines `module:B`, so the compilation graph has the edge
`a.f90 → b.f90`; no caches are filled yet. -/
def st8 : TreeState :=
  { cwd := "/cwd",
    scopes := [("a.f90", ["sub:A"]), ("b.f90", ["module:B"])],
    includeList := [("a.f90", [("sub:A", [])]),
      ("b.f90", [("module:B", [])])],
    useList := [("a.f90", [("sub:A", [("B", [])])]),
      ("b.f90", [("module:B", [])])],
    callList := [("a.f90", [("sub:A", [])]),
      ("b.f90", [("module:B", [])])],
    funcList := [("a.f90", [("sub:A", [])]),
      ("b.f90", [("module:B", [])])],
    cacheComp := none, cacheExec := none, cacheInc := none }

/-- Persisted document of the C8 counterexample: the same files but
with the `USE B` statement removed, so a rebuild yields no edges. -/
def doc8 : TreeDoc :=
  { cwd := "/cwd",
    scopes := [("a.f90", ["sub:A"]), ("b.f90", ["module:B"])],
    includeList := [("a.f90", [("sub:A", [])]),
      ("b.f90", [("module:B", [])])],
    useList := [("a.f90", [("sub:A", [])]),
      ("b.f90", [("module:B", [])])],
    callList := [("a.f90", [("sub:A", [])]),
      ("b.f90", [("module:B", [])])],
    funcList := [("a.f90", [("sub:A", [])]),
      ("b.f90", [("module:B", [])])] }

/-- Claim C8 (counterexample).  Query the compilation graph (filling the
cache), load a document whose records no longer justify the edge
`a.f90 → b.f90`, then query again: the second query is answered from the
stale cache and still returns the edge, while a rebuild over the loaded
records yields no edge — `fromJson` does not clear the caches. -/
theorem stale_graph_after_fromJson_cex :
    (compTreeQuery "/cwd"
        (fromJsonModel (compTreeQuery "/cwd" st8).2 doc8)).1 =
      some [("a.f90", ["b.f90"]), ("b.f90", [])] ∧
    compilationTree "/cwd" doc8.scopes doc8.includeList doc8.useList =
      [("a.f90", []), ("b.f90", [])] := by
  decide

/-- C8 state with all three caches filled, for the witness. -/
def st8c : TreeState :=
  { st8 with
    cacheComp := some [("z", [])]
    cacheExec := some []
    cacheInc := some [] }

/-- Witness for C8 (amended) at concrete states: a successful `update`
empties all three caches, and `fromJson` preserves them while swapping
the records. -/
theorem update_clears_caches_load_does_not_witness :
    ((updateRun ["a.f90"] parse0 st8c ["a.f90"]).1.cacheComp = none ∧
     (updateRun ["a.f90"] parse0 st8c ["a.f90"]).1.cacheExec = none ∧
     (updateRun ["a.f90"] parse0 st8c ["a.f90"]).1.cacheInc = none) ∧
    ((fromJsonModel st8c doc8).cacheComp = st8c.cacheComp ∧
     (fromJsonModel st8c doc8).cacheExec = st8c.cacheExec ∧
     (fromJsonModel st8c doc8).cacheInc = st8c.cacheInc ∧
     (fromJsonModel st8c doc8).scopes = doc8.scopes) :=
  ⟨(update_clears_caches_load_does_not ["a.f90"] parse0 st8c ["a.f90"]
      doc8).1 (by decide) (by decide) (by decide),
   (update_clears_caches_load_does_not ["a.f90"] parse0 st8c ["a.f90"]
      doc8).2⟩

/-! ## Claim C9: forgetting a file that no longer exists -/

/-- Tree state of the C9 scenario: two analysed files. -/
def st9 : TreeState :=
  { cwd := "/cwd",
    scopes := [("gone.f90", ["sub:G"]), ("keep.f90", ["sub:K"])],
    includeList := [("gone.f90", [("sub:G", [])]),
      ("keep.f90", [("sub:K", [])])],
    useList := [("gone.f90", [("sub:G", [])]),
      ("keep.f90", [("sub:K", [])])],
    callList := [("gone.f90", [("sub:G", [])]),
      ("keep.f90", [("sub:K", [])])],
    funcList := [("gone.f90", [("sub:G", [])]),
      ("keep.f90", [("sub:K", [])])],
    cacheComp := none, cacheExec := none, cacheInc := none }

/-- Claim C9.  Passing the tracked file `gone.f90`, no longer present on
disk (empty disk list), through `update` should remove its record; in
the code the removal branch of `_analyseFile` reads the local variable
`filename`, which is never assigned in that branch (the parameter is
named `file`), so Python raises `UnboundLocalError`: the update aborts,
the state is unchanged, and the record of `gone.f90` — scope list,
include, use, call and function tables — is still present. -/
theorem forget_path_unbound_local_crash :
    updateRun [] parse0 st9 ["gone.f90"] =
      (st9, some "UnboundLocalError") ∧
    "gone.f90" ∈
      (updateRun [] parse0 st9 ["gone.f90"]).1.scopes.map Prod.fst := by
  decide

/-! ## Claim C10: `update` on an invalid tree -/

/-- Claim C10.  When the tree holds no analysed records (`isValid` is
false), `Tree.update` is a no-op for every argument: the state — records
and caches alike — is returned untouched and no error is raised, so the
first record can never enter the index through `update`. -/
theorem update_noop_on_invalid_tree (disk : List String)
    (parse : String → FileRecord) (st : TreeState) (files : List String)
    (h : isValid st = false) :
    updateRun disk parse st files = (st, none) := by
  rw [updateRun, if_neg]
  rw [h]
  exact Bool.false_ne_true

/-- Empty tree state with a leftover cache value, for the C10
witness. -/
def st10 : TreeState :=
  { cwd := "/cwd", scopes := [], includeList := [], useList := [],
    callList := [], funcList := [], cacheComp := some [("z", [])],
    cacheExec := none, cacheInc := none }

/-- Witness for C10: updating an empty tree with an existing file
changes nothing. -/
theorem update_noop_on_invalid_tree_witness :
    updateRun ["x.f90"] parse0 st10 ["x.f90"] = (st10, none) :=
  update_noop_on_invalid_tree ["x.f90"] parse0 st10 ["x.f90"] (by decide)

end PyftTree
